import Mathlib

/-!
Verification of the `charmap` package: a table-driven converter between
legacy 8-bit character encodings and UTF-8.

A Go `string` and a Go `[]byte` are both modelled as `List Nat`, each
element a byte value (0x00–0xFF for data produced by real Go programs;
the definitions are total on `Nat`).  A rune (Unicode codepoint) is a
`Nat`.  Go maps are modelled as association lists looked up by first
match; insertion that overwrites an existing key is modelled by
prepending, so that the most recent insertion wins.

The sentinel errors `ErrUnknownEncoding` and `ErrInvalidCodepoint` are
modelled by `GoError`; a Go `error` result is `Option GoError` with
`none` for `nil`.
-/

/-- The two sentinel errors of the package:
`ErrUnknownEncoding` ("encoding is not supported") and
`ErrInvalidCodepoint` ("cannot convert one or more codepoints"). -/
inductive GoError where
  | unknownEncoding
  | invalidCodepoint
deriving DecidableEq, Repr

/-- `utf8.RuneError`, the Unicode replacement character U+FFFD. -/
def RuneError : Nat := 0xFFFD

/-- A Unicode scalar value: below the surrogate range or between the
surrogate range and 0x110000.  Mirrors what Go's UTF-8 encoder accepts
verbatim. -/
def validRune (r : Nat) : Bool := r < 0xD800 || (0xE000 ≤ r && r < 0x110000)

/-- Go's `utf8.EncodeRune` / `bytes.Buffer.WriteRune`: the UTF-8 bytes
of a rune; surrogates and out-of-range values are replaced by the
encoding of `RuneError` (EF BF BD).  Bit operations are written with
`/`, `%`, `+` (e.g. `b &^ 0x3F` as `% 0x40`, `0x80 | x` with `x < 0x40`
as `0x80 + x`). -/
def utf8Encode (r : Nat) : List Nat :=
  if r < 0x80 then [r]
  else if r < 0x800 then [0xC0 + r / 0x40, 0x80 + r % 0x40]
  else if (0xD800 ≤ r ∧ r < 0xE000) ∨ 0x110000 ≤ r then [0xEF, 0xBF, 0xBD]
  else if r < 0x10000 then
    [0xE0 + r / 0x1000, 0x80 + (r / 0x40) % 0x40, 0x80 + r % 0x40]
  else
    [0xF0 + r / 0x40000, 0x80 + (r / 0x1000) % 0x40,
     0x80 + (r / 0x40) % 0x40, 0x80 + r % 0x40]

/-- Go's `utf8.DecodeRuneInString`: the first rune of a byte sequence
and the number of bytes it occupies.  Empty input gives
`(RuneError, 0)`; an invalid first byte, an out-of-range continuation
byte (the accept ranges exclude overlong encodings and surrogates) or
a truncated sequence gives `(RuneError, 1)`. -/
def decodeRune : List Nat → Nat × Nat
  | [] => (RuneError, 0)
  | b0 :: rest =>
    if b0 < 0x80 then (b0, 1)
    else if b0 < 0xC2 ∨ 0xF4 < b0 then (RuneError, 1)
    else if b0 < 0xE0 then
      match rest with
      | b1 :: _ =>
        if 0x80 ≤ b1 ∧ b1 ≤ 0xBF then ((b0 % 0x20) * 0x40 + b1 % 0x40, 2)
        else (RuneError, 1)
      | [] => (RuneError, 1)
    else if b0 < 0xF0 then
      match rest with
      | b1 :: b2 :: _ =>
        if ((if b0 = 0xE0 then 0xA0 ≤ b1 ∧ b1 ≤ 0xBF
             else if b0 = 0xED then 0x80 ≤ b1 ∧ b1 ≤ 0x9F
             else 0x80 ≤ b1 ∧ b1 ≤ 0xBF) ∧ 0x80 ≤ b2 ∧ b2 ≤ 0xBF) then
          ((b0 % 0x10) * 0x1000 + (b1 % 0x40) * 0x40 + b2 % 0x40, 3)
        else (RuneError, 1)
      | _ => (RuneError, 1)
    else
      match rest with
      | b1 :: b2 :: b3 :: _ =>
        if ((if b0 = 0xF0 then 0x90 ≤ b1 ∧ b1 ≤ 0xBF
             else if b0 = 0xF4 then 0x80 ≤ b1 ∧ b1 ≤ 0x8F
             else 0x80 ≤ b1 ∧ b1 ≤ 0xBF) ∧ 0x80 ≤ b2 ∧ b2 ≤ 0xBF
             ∧ 0x80 ≤ b3 ∧ b3 ≤ 0xBF) then
          ((b0 % 0x8) * 0x40000 + (b1 % 0x40) * 0x1000
             + (b2 % 0x40) * 0x40 + b3 % 0x40, 4)
        else (RuneError, 1)
      | _ => (RuneError, 1)

/-- Fuel-indexed worker for `rangeRunes`.  Each step consumes at least
one byte, so fuel equal to the length of the list is always enough. -/
def rangeRunesAux : Nat → List Nat → List Nat
  | 0, _ => []
  | _, [] => []
  | fuel + 1, b :: rest =>
    let p := decodeRune (b :: rest)
    p.1 :: rangeRunesAux fuel (List.drop (p.2 - 1) rest)

/-- Go's `for _, r := range s` over a string: the sequence of runes
decoded from the bytes, one `RuneError` per byte of every invalid
sequence. -/
def rangeRunes (l : List Nat) : List Nat := rangeRunesAux l.length l

/-- Go map lookup `m[k]` on the association-list model: first match. -/
def mapLookup {α β : Type} [DecidableEq α] : List (α × β) → α → Option β
  | [], _ => none
  | (k, v) :: rest, k' => if k' = k then some v else mapLookup rest k'

/-- `reverseByteRuneMap`: builds the encode table from a decode table.
`newmap[v] = k` for each entry `(k, v)` in iteration order; overwriting
an existing key is modelled by prepending, so under first-match lookup
the entry constructed last wins, exactly as in a Go map. -/
def reverseByteRuneMap (m : List (Nat × Nat)) : List (Nat × Nat) :=
  m.foldl (fun acc kv => (kv.2, kv.1) :: acc) []

/-- `mapBytesToRunes`: decode.  Looks up each input byte in the decode
table in order; a hit appends the UTF-8 bytes of its rune, a miss
appends the UTF-8 bytes of `RuneError` and records
`ErrInvalidCodepoint`.  Always runs to the end of the input. -/
def mapBytesToRunes (cm : List (Nat × Nat)) : List Nat → List Nat × Option GoError
  | [] => ([], none)
  | b :: bs =>
    let rest := mapBytesToRunes cm bs
    match mapLookup cm b with
    | some r => (utf8Encode r ++ rest.1, rest.2)
    | none => (utf8Encode RuneError ++ rest.1, some GoError.invalidCodepoint)

/-- The shared encode loop body: for each rune of the given sequence,
a hit in the encode table appends its byte, a miss appends `'?'`
(0x3F) and records `ErrInvalidCodepoint`. -/
def mapRunesLoop (cm : List (Nat × Nat)) : List Nat → List Nat × Option GoError
  | [] => ([], none)
  | r :: rs =>
    let rest := mapRunesLoop cm rs
    match mapLookup cm r with
    | some c => (c :: rest.1, rest.2)
    | none => (0x3F :: rest.1, some GoError.invalidCodepoint)

/-- `mapRunesToBytes`: encode.  `for _, r := range data` over a string
iterates its UTF-8-decoded runes, then applies the encode loop. -/
def mapRunesToBytes (cm : List (Nat × Nat)) (data : List Nat) :
    List Nat × Option GoError :=
  mapRunesLoop cm (rangeRunes data)

/-- `mapBytesToRunesBuffer`: same loop as `mapBytesToRunes`, writing
into a `bytes.Buffer` (also modelled as the list of its bytes). -/
def mapBytesToRunesBuffer (cm : List (Nat × Nat)) (data : List Nat) :
    List Nat × Option GoError :=
  mapBytesToRunes cm data

/-- `mapRunesToBytesBuffer`: the source ranges with `for _, r := range
data` over a `[]byte`, which iterates the raw BYTES (each cast to a
rune by `cm[rune(r)]`), not UTF-8-decoded runes, and then runs the same
encode loop. -/
def mapRunesToBytesBuffer (cm : List (Nat × Nat)) (data : List Nat) :
    List Nat × Option GoError :=
  mapRunesLoop cm data

/-- `codecMap8Bit`: one registered 8-bit codec, its decode table and
the derived encode table. -/
structure codecMap8Bit where
  EncodeMap : List (Nat × Nat)
  DecodeMap : List (Nat × Nat)
deriving DecidableEq, Repr

def codecMap8Bit.Encode (c : codecMap8Bit) (s : List Nat) :
    List Nat × Option GoError :=
  mapRunesToBytes c.EncodeMap s

def codecMap8Bit.Decode (c : codecMap8Bit) (s : List Nat) :
    List Nat × Option GoError :=
  mapBytesToRunes c.DecodeMap s

def codecMap8Bit.EncodeToBuffer (c : codecMap8Bit) (s : List Nat) :
    List Nat × Option GoError :=
  mapRunesToBytesBuffer c.EncodeMap s

def codecMap8Bit.DecodeToBuffer (c : codecMap8Bit) (s : List Nat) :
    List Nat × Option GoError :=
  mapBytesToRunesBuffer c.DecodeMap s

/-- The ISO-8859-2 `charmapDecode` map literal, in source order. -/
def iso8859_2Decode : List (Nat × Nat) := [
  (0x00, 0x0000), (0x01, 0x0001), (0x02, 0x0002), (0x03, 0x0003),
  (0x04, 0x0004), (0x05, 0x0005), (0x06, 0x0006), (0x07, 0x0007),
  (0x08, 0x0008), (0x09, 0x0009), (0x0A, 0x000A), (0x0B, 0x000B),
  (0x0C, 0x000C), (0x0D, 0x000D), (0x0E, 0x000E), (0x0F, 0x000F),
  (0x10, 0x0010), (0x11, 0x0011), (0x12, 0x0012), (0x13, 0x0013),
  (0x14, 0x0014), (0x15, 0x0015), (0x16, 0x0016), (0x17, 0x0017),
  (0x18, 0x0018), (0x19, 0x0019), (0x1A, 0x001A), (0x1B, 0x001B),
  (0x1C, 0x001C), (0x1D, 0x001D), (0x1E, 0x001E), (0x1F, 0x001F),
  (0x20, 0x0020), (0x21, 0x0021), (0x22, 0x0022), (0x23, 0x0023),
  (0x24, 0x0024), (0x25, 0x0025), (0x26, 0x0026), (0x27, 0x0027),
  (0x28, 0x0028), (0x29, 0x0029), (0x2A, 0x002A), (0x2B, 0x002B),
  (0x2C, 0x002C), (0x2D, 0x002D), (0x2E, 0x002E), (0x2F, 0x002F),
  (0x30, 0x0030), (0x31, 0x0031), (0x32, 0x0032), (0x33, 0x0033),
  (0x34, 0x0034), (0x35, 0x0035), (0x36, 0x0036), (0x37, 0x0037),
  (0x38, 0x0038), (0x39, 0x0039), (0x3A, 0x003A), (0x3B, 0x003B),
  (0x3C, 0x003C), (0x3D, 0x003D), (0x3E, 0x003E), (0x3F, 0x003F),
  (0x40, 0x0040), (0x41, 0x0041), (0x42, 0x0042), (0x43, 0x0043),
  (0x44, 0x0044), (0x45, 0x0045), (0x46, 0x0046), (0x47, 0x0047),
  (0x48, 0x0048), (0x49, 0x0049), (0x4A, 0x004A), (0x4B, 0x004B),
  (0x4C, 0x004C), (0x4D, 0x004D), (0x4E, 0x004E), (0x4F, 0x004F),
  (0x50, 0x0050), (0x51, 0x0051), (0x52, 0x0052), (0x53, 0x0053),
  (0x54, 0x0054), (0x55, 0x0055), (0x56, 0x0056), (0x57, 0x0057),
  (0x58, 0x0058), (0x59, 0x0059), (0x5A, 0x005A), (0x5B, 0x005B),
  (0x5C, 0x005C), (0x5D, 0x005D), (0x5E, 0x005E), (0x5F, 0x005F),
  (0x60, 0x0060), (0x61, 0x0061), (0x62, 0x0062), (0x63, 0x0063),
  (0x64, 0x0064), (0x65, 0x0065), (0x66, 0x0066), (0x67, 0x0067),
  (0x68, 0x0068), (0x69, 0x0069), (0x6A, 0x006A), (0x6B, 0x006B),
  (0x6C, 0x006C), (0x6D, 0x006D), (0x6E, 0x006E), (0x6F, 0x006F),
  (0x70, 0x0070), (0x71, 0x0071), (0x72, 0x0072), (0x73, 0x0073),
  (0x74, 0x0074), (0x75, 0x0075), (0x76, 0x0076), (0x77, 0x0077),
  (0x78, 0x0078), (0x79, 0x0079), (0x7A, 0x007A), (0x7B, 0x007B),
  (0x7C, 0x007C), (0x7D, 0x007D), (0x7E, 0x007E), (0x7F, 0x007F),
  (0x80, 0x0080), (0x81, 0x0081), (0x82, 0x0082), (0x83, 0x0083),
  (0x84, 0x0084), (0x85, 0x0085), (0x86, 0x0086), (0x87, 0x0087),
  (0x88, 0x0088), (0x89, 0x0089), (0x8A, 0x008A), (0x8B, 0x008B),
  (0x8C, 0x008C), (0x8D, 0x008D), (0x8E, 0x008E), (0x8F, 0x008F),
  (0x90, 0x0090), (0x91, 0x0091), (0x92, 0x0092), (0x93, 0x0093),
  (0x94, 0x0094), (0x95, 0x0095), (0x96, 0x0096), (0x97, 0x0097),
  (0x98, 0x0098), (0x99, 0x0099), (0x9A, 0x009A), (0x9B, 0x009B),
  (0x9C, 0x009C), (0x9D, 0x009D), (0x9E, 0x009E), (0x9F, 0x009F),
  (0xA0, 0x00A0), (0xA1, 0x0104), (0xA2, 0x02D8), (0xA3, 0x0141),
  (0xA4, 0x00A4), (0xA5, 0x013D), (0xA6, 0x015A), (0xA7, 0x00A7),
  (0xA8, 0x00A8), (0xA9, 0x0160), (0xAA, 0x015E), (0xAB, 0x0164),
  (0xAC, 0x0179), (0xAD, 0x00AD), (0xAE, 0x017D), (0xAF, 0x017B),
  (0xB0, 0x00B0), (0xB1, 0x0105), (0xB2, 0x02DB), (0xB3, 0x0142),
  (0xB4, 0x00B4), (0xB5, 0x013E), (0xB6, 0x015B), (0xB7, 0x02C7),
  (0xB8, 0x00B8), (0xB9, 0x0161), (0xBA, 0x015F), (0xBB, 0x0165),
  (0xBC, 0x017A), (0xBD, 0x02DD), (0xBE, 0x017E), (0xBF, 0x017C),
  (0xC0, 0x0154), (0xC1, 0x00C1), (0xC2, 0x00C2), (0xC3, 0x0102),
  (0xC4, 0x00C4), (0xC5, 0x0139), (0xC6, 0x0106), (0xC7, 0x00C7),
  (0xC8, 0x010C), (0xC9, 0x00C9), (0xCA, 0x0118), (0xCB, 0x00CB),
  (0xCC, 0x011A), (0xCD, 0x00CD), (0xCE, 0x00CE), (0xCF, 0x010E),
  (0xD0, 0x0110), (0xD1, 0x0143), (0xD2, 0x0147), (0xD3, 0x00D3),
  (0xD4, 0x00D4), (0xD5, 0x0150), (0xD6, 0x00D6), (0xD7, 0x00D7),
  (0xD8, 0x0158), (0xD9, 0x016E), (0xDA, 0x00DA), (0xDB, 0x0170),
  (0xDC, 0x00DC), (0xDD, 0x00DD), (0xDE, 0x0162), (0xDF, 0x00DF),
  (0xE0, 0x0155), (0xE1, 0x00E1), (0xE2, 0x00E2), (0xE3, 0x0103),
  (0xE4, 0x00E4), (0xE5, 0x013A), (0xE6, 0x0107), (0xE7, 0x00E7),
  (0xE8, 0x010D), (0xE9, 0x00E9), (0xEA, 0x0119), (0xEB, 0x00EB),
  (0xEC, 0x011B), (0xED, 0x00ED), (0xEE, 0x00EE), (0xEF, 0x010F),
  (0xF0, 0x0111), (0xF1, 0x0144), (0xF2, 0x0148), (0xF3, 0x00F3),
  (0xF4, 0x00F4), (0xF5, 0x0151), (0xF6, 0x00F6), (0xF7, 0x00F7),
  (0xF8, 0x0159), (0xF9, 0x016F), (0xFA, 0x00FA), (0xFB, 0x0171),
  (0xFC, 0x00FC), (0xFD, 0x00FD), (0xFE, 0x0163), (0xFF, 0x02D9)
]
/-- The ISO-8859-14 `charmapDecode` map literal, in source order. -/
def iso8859_14Decode : List (Nat × Nat) := [
  (0x00, 0x0000), (0x01, 0x0001), (0x02, 0x0002), (0x03, 0x0003),
  (0x04, 0x0004), (0x05, 0x0005), (0x06, 0x0006), (0x07, 0x0007),
  (0x08, 0x0008), (0x09, 0x0009), (0x0A, 0x000A), (0x0B, 0x000B),
  (0x0C, 0x000C), (0x0D, 0x000D), (0x0E, 0x000E), (0x0F, 0x000F),
  (0x10, 0x0010), (0x11, 0x0011), (0x12, 0x0012), (0x13, 0x0013),
  (0x14, 0x0014), (0x15, 0x0015), (0x16, 0x0016), (0x17, 0x0017),
  (0x18, 0x0018), (0x19, 0x0019), (0x1A, 0x001A), (0x1B, 0x001B),
  (0x1C, 0x001C), (0x1D, 0x001D), (0x1E, 0x001E), (0x1F, 0x001F),
  (0x20, 0x0020), (0x21, 0x0021), (0x22, 0x0022), (0x23, 0x0023),
  (0x24, 0x0024), (0x25, 0x0025), (0x26, 0x0026), (0x27, 0x0027),
  (0x28, 0x0028), (0x29, 0x0029), (0x2A, 0x002A), (0x2B, 0x002B),
  (0x2C, 0x002C), (0x2D, 0x002D), (0x2E, 0x002E), (0x2F, 0x002F),
  (0x30, 0x0030), (0x31, 0x0031), (0x32, 0x0032), (0x33, 0x0033),
  (0x34, 0x0034), (0x35, 0x0035), (0x36, 0x0036), (0x37, 0x0037),
  (0x38, 0x0038), (0x39, 0x0039), (0x3A, 0x003A), (0x3B, 0x003B),
  (0x3C, 0x003C), (0x3D, 0x003D), (0x3E, 0x003E), (0x3F, 0x003F),
  (0x40, 0x0040), (0x41, 0x0041), (0x42, 0x0042), (0x43, 0x0043),
  (0x44, 0x0044), (0x45, 0x0045), (0x46, 0x0046), (0x47, 0x0047),
  (0x48, 0x0048), (0x49, 0x0049), (0x4A, 0x004A), (0x4B, 0x004B),
  (0x4C, 0x004C), (0x4D, 0x004D), (0x4E, 0x004E), (0x4F, 0x004F),
  (0x50, 0x0050), (0x51, 0x0051), (0x52, 0x0052), (0x53, 0x0053),
  (0x54, 0x0054), (0x55, 0x0055), (0x56, 0x0056), (0x57, 0x0057),
  (0x58, 0x0058), (0x59, 0x0059), (0x5A, 0x005A), (0x5B, 0x005B),
  (0x5C, 0x005C), (0x5D, 0x005D), (0x5E, 0x005E), (0x5F, 0x005F),
  (0x60, 0x0060), (0x61, 0x0061), (0x62, 0x0062), (0x63, 0x0063),
  (0x64, 0x0064), (0x65, 0x0065), (0x66, 0x0066), (0x67, 0x0067),
  (0x68, 0x0068), (0x69, 0x0069), (0x6A, 0x006A), (0x6B, 0x006B),
  (0x6C, 0x006C), (0x6D, 0x006D), (0x6E, 0x006E), (0x6F, 0x006F),
  (0x70, 0x0070), (0x71, 0x0071), (0x72, 0x0072), (0x73, 0x0073),
  (0x74, 0x0074), (0x75, 0x0075), (0x76, 0x0076), (0x77, 0x0077),
  (0x78, 0x0078), (0x79, 0x0079), (0x7A, 0x007A), (0x7B, 0x007B),
  (0x7C, 0x007C), (0x7D, 0x007D), (0x7E, 0x007E), (0x7F, 0x007F),
  (0x80, 0x0080), (0x81, 0x0081), (0x82, 0x0082), (0x83, 0x0083),
  (0x84, 0x0084), (0x85, 0x0085), (0x86, 0x0086), (0x87, 0x0087),
  (0x88, 0x0088), (0x89, 0x0089), (0x8A, 0x008A), (0x8B, 0x008B),
  (0x8C, 0x008C), (0x8D, 0x008D), (0x8E, 0x008E), (0x8F, 0x008F),
  (0x90, 0x0090), (0x91, 0x0091), (0x92, 0x0092), (0x93, 0x0093),
  (0x94, 0x0094), (0x95, 0x0095), (0x96, 0x0096), (0x97, 0x0097),
  (0x98, 0x0098), (0x99, 0x0099), (0x9A, 0x009A), (0x9B, 0x009B),
  (0x9C, 0x009C), (0x9D, 0x009D), (0x9E, 0x009E), (0x9F, 0x009F),
  (0xA0, 0x00A0), (0xA1, 0x1E02), (0xA2, 0x1E03), (0xA3, 0x00A3),
  (0xA4, 0x010A), (0xA5, 0x010B), (0xA6, 0x1E0A), (0xA7, 0x00A7),
  (0xA8, 0x1E80), (0xA9, 0x00A9), (0xAA, 0x1E82), (0xAB, 0x1E0B),
  (0xAC, 0x1EF2), (0xAD, 0x00AD), (0xAE, 0x00AE), (0xAF, 0x0178),
  (0xB0, 0x1E1E), (0xB1, 0x1E1F), (0xB2, 0x0120), (0xB3, 0x0121),
  (0xB4, 0x1E40), (0xB5, 0x1E41), (0xB6, 0x00B6), (0xB7, 0x1E56),
  (0xB8, 0x1E81), (0xB9, 0x1E57), (0xBA, 0x1E83), (0xBB, 0x1E60),
  (0xBC, 0x1EF3), (0xBD, 0x1E84), (0xBE, 0x1E85), (0xBF, 0x1E61),
  (0xC0, 0x00C0), (0xC1, 0x00C1), (0xC2, 0x00C2), (0xC3, 0x00C3),
  (0xC4, 0x00C4), (0xC5, 0x00C5), (0xC6, 0x00C6), (0xC7, 0x00C7),
  (0xC8, 0x00C8), (0xC9, 0x00C9), (0xCA, 0x00CA), (0xCB, 0x00CB),
  (0xCC, 0x00CC), (0xCD, 0x00CD), (0xCE, 0x00CE), (0xCF, 0x00CF),
  (0xD0, 0x0174), (0xD1, 0x00D1), (0xD2, 0x00D2), (0xD3, 0x00D3),
  (0xD4, 0x00D4), (0xD5, 0x00D5), (0xD6, 0x00D6), (0xD7, 0x1E6A),
  (0xD8, 0x00D8), (0xD9, 0x00D9), (0xDA, 0x00DA), (0xDB, 0x00DB),
  (0xDC, 0x00DC), (0xDD, 0x00DD), (0xDE, 0x0176), (0xDF, 0x00DF),
  (0xE0, 0x00E0), (0xE1, 0x00E1), (0xE2, 0x00E2), (0xE3, 0x00E3),
  (0xE4, 0x00E4), (0xE5, 0x00E5), (0xE6, 0x00E6), (0xE7, 0x00E7),
  (0xE8, 0x00E8), (0xE9, 0x00E9), (0xEA, 0x00EA), (0xEB, 0x00EB),
  (0xEC, 0x00EC), (0xED, 0x00ED), (0xEE, 0x00EE), (0xEF, 0x00EF),
  (0xF0, 0x0175), (0xF1, 0x00F1), (0xF2, 0x00F2), (0xF3, 0x00F3),
  (0xF4, 0x00F4), (0xF5, 0x00F5), (0xF6, 0x00F6), (0xF7, 0x1E6B),
  (0xF8, 0x00F8), (0xF9, 0x00F9), (0xFA, 0x00FA), (0xFB, 0x00FB),
  (0xFC, 0x00FC), (0xFD, 0x00FD), (0xFE, 0x0177), (0xFF, 0x00FF)
]
/-- The ISO-8859-2 codec as constructed by its `init` function:
`&codecMap8Bit{EncodeMap: reverseByteRuneMap(charmapDecode),
DecodeMap: charmapDecode}`. -/
def iso8859_2Codec : codecMap8Bit :=
  { EncodeMap := reverseByteRuneMap iso8859_2Decode
    DecodeMap := iso8859_2Decode }

/-- The ISO-8859-14 codec as constructed by its `init` function. -/
def iso8859_14Codec : codecMap8Bit :=
  { EncodeMap := reverseByteRuneMap iso8859_14Decode
    DecodeMap := iso8859_14Decode }

/-- `codecsMap` after both `init` functions have run
`register(newCodec, name, aliases...)`: canonical name to codec. -/
def codecsMap : List (String × codecMap8Bit) :=
  [("ISO-8859-2", iso8859_2Codec), ("ISO-8859-14", iso8859_14Codec)]

/-- `aliasesMap` after both registrations: alias to canonical name. -/
def aliasesMap : List (String × String) :=
  [("8859-2", "ISO-8859-2"), ("ISO8859-2", "ISO-8859-2"),
   ("8859-14", "ISO-8859-14"), ("ISO8859-14", "ISO-8859-14")]

/-- `List()`: the names of all registered codecs (Go map iteration
order is unspecified; the model fixes registration order). -/
def ListEncodings : List String := codecsMap.map Prod.fst

/-- `strings.ToUpper` on the ASCII labels used by this package: each
character uppercased. -/
def goToUpper (s : String) : String := String.mk (s.data.map Char.toUpper)

/-- `strings.Replace(s, "_", "-", -1)`: every underscore becomes a
hyphen. -/
def goReplaceUnderscore (s : String) : String :=
  String.mk (s.data.map (fun c => if c = '_' then '-' else c))

/-- `getCodecForEncoding`: normalize the label (uppercase, `_` to `-`),
then substitute a registered alias by its canonical name. -/
def getCodecForEncoding (encoding : String) : String :=
  let e := goReplaceUnderscore (goToUpper encoding)
  match mapLookup aliasesMap e with
  | some name => name
  | none => e

/-- `Encode(data, encoding)`: resolve the label; delegate to the codec
if registered, otherwise return the input and `ErrUnknownEncoding`. -/
def Encode (data : List Nat) (encoding : String) :
    List Nat × Option GoError :=
  match mapLookup codecsMap (getCodecForEncoding encoding) with
  | some c => c.Encode data
  | none => (data, some GoError.unknownEncoding)

/-- `Decode(data, encoding)`: resolve the label; delegate to the codec
if registered, otherwise return the input and `ErrUnknownEncoding`. -/
def Decode (data : List Nat) (encoding : String) :
    List Nat × Option GoError :=
  match mapLookup codecsMap (getCodecForEncoding encoding) with
  | some c => c.Decode data
  | none => (data, some GoError.unknownEncoding)

/-- `EncodeToBuffer(data, encoding)`: like `Encode`; on an unknown
encoding, `bytes.NewBuffer(data)` holds exactly the input bytes. -/
def EncodeToBuffer (data : List Nat) (encoding : String) :
    List Nat × Option GoError :=
  match mapLookup codecsMap (getCodecForEncoding encoding) with
  | some c => c.EncodeToBuffer data
  | none => (data, some GoError.unknownEncoding)

/-- `DecodeToBuffer(data, encoding)`: like `Decode`; on an unknown
encoding, `bytes.NewBuffer(data)` holds exactly the input bytes. -/
def DecodeToBuffer (data : List Nat) (encoding : String) :
    List Nat × Option GoError :=
  match mapLookup codecsMap (getCodecForEncoding encoding) with
  | some c => c.DecodeToBuffer data
  | none => (data, some GoError.unknownEncoding)

/-- Per-byte decode result: the table's rune, or `RuneError` for an
unmapped byte. -/
def decodeOneRune (cm : List (Nat × Nat)) (b : Nat) : Nat :=
  (mapLookup cm b).getD RuneError

/-- Per-rune encode result: the table's byte, or `'?'` (0x3F) for an
unmapped rune. -/
def encodeOneByte (cm : List (Nat × Nat)) (r : Nat) : Nat :=
  (mapLookup cm r).getD 0x3F

/-- A byte sequence is valid UTF-8 when it is exactly the concatenated
canonical encodings of its rune sequence, all of them Unicode scalar
values. -/
def validUTF8 (l : List Nat) : Bool :=
  (l == (rangeRunes l).flatMap utf8Encode)
    && (rangeRunes l).all (fun r => validRune r)

/-! ## UTF-8 lemmas -/

theorem utf8Encode_ne_nil (r : Nat) : utf8Encode r ≠ [] := by
  unfold utf8Encode
  split <;> try simp
  split <;> try simp
  split <;> try simp
  split <;> simp


/-- Decoding the canonical encoding of a Unicode scalar value yields
that value back, consuming exactly its encoding. -/
theorem decodeRune_utf8Encode (r : Nat) (rest : List Nat)
    (h : validRune r = true) :
    decodeRune (utf8Encode r ++ rest) = (r, (utf8Encode r).length) := by
  have hv : r < 0xD800 ∨ (0xE000 ≤ r ∧ r < 0x110000) := by
    simpa [validRune] using h
  by_cases h1 : r < 0x80
  · simp only [utf8Encode, if_pos h1, List.cons_append, List.nil_append]
    simp [decodeRune, h1]
  · by_cases h2 : r < 0x800
    · simp only [utf8Encode, if_neg h1, if_pos h2, List.cons_append,
        List.nil_append]
      simp only [decodeRune]
      rw [if_neg (by omega), if_neg (by omega), if_pos (by omega),
        if_pos (by omega)]
      simp only [Prod.mk.injEq, List.length_cons, List.length_nil]
      refine ⟨?_, by trivial⟩
      have e1 : (0xC0 + r / 0x40) % 0x20 = r / 0x40 := by omega
      have e2 : (0x80 + r % 0x40) % 0x40 = r % 0x40 := by omega
      rw [e1, e2]; omega
    · by_cases h3 : r < 0x10000
      · have hns : ¬ ((0xD800 ≤ r ∧ r < 0xE000) ∨ 0x110000 ≤ r) := by omega
        simp only [utf8Encode, if_neg h1, if_neg h2, if_neg hns, if_pos h3,
          List.cons_append, List.nil_append]
        simp only [decodeRune]
        rw [if_neg (by omega), if_neg (by omega), if_neg (by omega),
          if_pos (by omega)]
        have e1 : (0xE0 + r / 0x1000) % 0x10 = r / 0x1000 := by omega
        have e2 : (0x80 + (r / 0x40) % 0x40) % 0x40 = (r / 0x40) % 0x40 := by
          omega
        have e3 : (0x80 + r % 0x40) % 0x40 = r % 0x40 := by omega
        by_cases hA : r < 0x1000
        · rw [if_pos ?hc]
          case hc =>
            refine ⟨?_, by omega, by omega⟩
            rw [if_pos (show 0xE0 + r / 0x1000 = 0xE0 by omega)]
            omega
          simp only [Prod.mk.injEq, List.length_cons, List.length_nil]
          refine ⟨?_, by trivial⟩
          rw [e1, e2, e3]; omega
        · by_cases hB : 0xD000 ≤ r ∧ r < 0xE000
          · rw [if_pos ?hc2]
            case hc2 =>
              refine ⟨?_, by omega, by omega⟩
              rw [if_neg (show ¬ (0xE0 + r / 0x1000 = 0xE0) by omega),
                if_pos (show 0xE0 + r / 0x1000 = 0xED by omega)]
              omega
            simp only [Prod.mk.injEq, List.length_cons, List.length_nil]
            refine ⟨?_, by trivial⟩
            rw [e1, e2, e3]; omega
          · rw [if_pos ?hc3]
            case hc3 =>
              refine ⟨?_, by omega, by omega⟩
              rw [if_neg (show ¬ (0xE0 + r / 0x1000 = 0xE0) by omega),
                if_neg (show ¬ (0xE0 + r / 0x1000 = 0xED) by omega)]
              omega
            simp only [Prod.mk.injEq, List.length_cons, List.length_nil]
            refine ⟨?_, by trivial⟩
            rw [e1, e2, e3]; omega
      · have h4 : r < 0x110000 := by omega
        have hns : ¬ ((0xD800 ≤ r ∧ r < 0xE000) ∨ 0x110000 ≤ r) := by omega
        simp only [utf8Encode, if_neg h1, if_neg h2, if_neg hns, if_neg h3,
          List.cons_append, List.nil_append]
        simp only [decodeRune]
        rw [if_neg (by omega), if_neg (by omega), if_neg (by omega),
          if_neg (by omega)]
        have e1 : (0xF0 + r / 0x40000) % 0x8 = r / 0x40000 := by omega
        have e2 : (0x80 + (r / 0x1000) % 0x40) % 0x40 = (r / 0x1000) % 0x40 := by
          omega
        have e3 : (0x80 + (r / 0x40) % 0x40) % 0x40 = (r / 0x40) % 0x40 := by
          omega
        have e4 : (0x80 + r % 0x40) % 0x40 = r % 0x40 := by omega
        by_cases hA : r < 0x40000
        · rw [if_pos ?hd]
          case hd =>
            refine ⟨?_, by omega, by omega, by omega, by omega⟩
            rw [if_pos (show 0xF0 + r / 0x40000 = 0xF0 by omega)]
            omega
          simp only [Prod.mk.injEq, List.length_cons, List.length_nil]
          refine ⟨?_, by trivial⟩
          rw [e1, e2, e3, e4]; omega
        · by_cases hB : 0x100000 ≤ r
          · rw [if_pos ?he]
            case he =>
              refine ⟨?_, by omega, by omega, by omega, by omega⟩
              rw [if_neg (show ¬ (0xF0 + r / 0x40000 = 0xF0) by omega),
                if_pos (show 0xF0 + r / 0x40000 = 0xF4 by omega)]
              omega
            simp only [Prod.mk.injEq, List.length_cons, List.length_nil]
            refine ⟨?_, by trivial⟩
            rw [e1, e2, e3, e4]; omega
          · rw [if_pos ?hf]
            case hf =>
              refine ⟨?_, by omega, by omega, by omega, by omega⟩
              rw [if_neg (show ¬ (0xF0 + r / 0x40000 = 0xF0) by omega),
                if_neg (show ¬ (0xF0 + r / 0x40000 = 0xF4) by omega)]
              omega
            simp only [Prod.mk.injEq, List.length_cons, List.length_nil]
            refine ⟨?_, by trivial⟩
            rw [e1, e2, e3, e4]; omega

/-- Analysis of one decoding step: either the error result
`(RuneError, 1)`, or the step consumed exactly the canonical UTF-8
encoding of a Unicode scalar value. -/
theorem decodeRune_spec (b0 : Nat) (rest : List Nat) :
    decodeRune (b0 :: rest) = (RuneError, 1) ∨
    (List.take (decodeRune (b0 :: rest)).2 (b0 :: rest)
        = utf8Encode (decodeRune (b0 :: rest)).1
      ∧ validRune (decodeRune (b0 :: rest)).1 = true
      ∧ (decodeRune (b0 :: rest)).2
          = (utf8Encode (decodeRune (b0 :: rest)).1).length
      ∧ (decodeRune (b0 :: rest)).2 ≤ (b0 :: rest).length) := by
  by_cases h1 : b0 < 0x80
  · have hd : decodeRune (b0 :: rest) = (b0, 1) := by simp [decodeRune, h1]
    right
    rw [hd]
    have he : utf8Encode b0 = [b0] := by simp [utf8Encode, h1]
    refine ⟨by simp [he], ?_, by simp [he], by simp⟩
    simp only [validRune, Bool.or_eq_true, decide_eq_true_eq,
      Bool.and_eq_true]
    omega
  · by_cases h2 : b0 < 0xC2 ∨ 0xF4 < b0
    · left; simp [decodeRune, h1, h2]
    · by_cases h3 : b0 < 0xE0
      · match rest with
        | [] => left; simp [decodeRune, h1, h2, h3]
        | b1 :: tl =>
          by_cases h4 : 0x80 ≤ b1 ∧ b1 ≤ 0xBF
          · have hd : decodeRune (b0 :: b1 :: tl)
                = ((b0 % 0x20) * 0x40 + b1 % 0x40, 2) := by
              simp [decodeRune, h1, h2, h3, h4]
            right
            rw [hd]
            have d1 : ((b0 % 0x20) * 0x40 + b1 % 0x40) / 0x40 = b0 % 0x20 := by
              omega
            have d2 : ((b0 % 0x20) * 0x40 + b1 % 0x40) % 0x40 = b1 % 0x40 := by
              omega
            have he : utf8Encode ((b0 % 0x20) * 0x40 + b1 % 0x40)
                = [0xC0 + b0 % 0x20, 0x80 + b1 % 0x40] := by
              simp only [utf8Encode]
              rw [if_neg (by omega), if_pos (by omega), d1, d2]
            refine ⟨?_, ?_, by simp [he], by simp⟩
            · simp only [List.take, he, List.cons.injEq]
              refine ⟨by omega, by omega, trivial⟩
            · simp only [validRune, Bool.or_eq_true, decide_eq_true_eq,
                Bool.and_eq_true]
              omega
          · left; simp [decodeRune, h1, h2, h3, h4]
      · by_cases h5 : b0 < 0xF0
        · match rest with
          | [] => left; simp [decodeRune, h1, h2, h3, h5]
          | [b1] => left; simp [decodeRune, h1, h2, h3, h5]
          | b1 :: b2 :: tl =>
            by_cases hacc : ((if b0 = 0xE0 then 0xA0 ≤ b1 ∧ b1 ≤ 0xBF
                 else if b0 = 0xED then 0x80 ≤ b1 ∧ b1 ≤ 0x9F
                 else 0x80 ≤ b1 ∧ b1 ≤ 0xBF) ∧ 0x80 ≤ b2 ∧ b2 ≤ 0xBF)
            · have hd : decodeRune (b0 :: b1 :: b2 :: tl)
                  = ((b0 % 0x10) * 0x1000 + (b1 % 0x40) * 0x40 + b2 % 0x40,
                     3) := by
                simp [decodeRune, h1, h2, h3, h5, hacc]
              right
              rw [hd]
              obtain ⟨hb1, hb2a, hb2b⟩ := hacc
              have hb1' : 0x80 ≤ b1 ∧ b1 ≤ 0xBF ∧
                  (b0 = 0xE0 → 0xA0 ≤ b1) ∧ (b0 = 0xED → b1 ≤ 0x9F) := by
                by_cases hE : b0 = 0xE0
                · rw [if_pos hE] at hb1; omega
                · rw [if_neg hE] at hb1
                  by_cases hD : b0 = 0xED
                  · rw [if_pos hD] at hb1; omega
                  · rw [if_neg hD] at hb1; omega
              have d1 : ((b0 % 0x10) * 0x1000 + (b1 % 0x40) * 0x40 + b2 % 0x40)
                  / 0x1000 = b0 % 0x10 := by omega
              have d2 : (((b0 % 0x10) * 0x1000 + (b1 % 0x40) * 0x40 + b2 % 0x40)
                  / 0x40) % 0x40 = b1 % 0x40 := by omega
              have d3 : ((b0 % 0x10) * 0x1000 + (b1 % 0x40) * 0x40 + b2 % 0x40)
                  % 0x40 = b2 % 0x40 := by omega
              have hval : (b0 % 0x10) * 0x1000 + (b1 % 0x40) * 0x40 + b2 % 0x40
                    < 0xD800
                  ∨ 0xE000 ≤ (b0 % 0x10) * 0x1000 + (b1 % 0x40) * 0x40
                      + b2 % 0x40 := by
                by_cases hD : b0 = 0xED
                · left; omega
                · omega
              have he : utf8Encode
                    ((b0 % 0x10) * 0x1000 + (b1 % 0x40) * 0x40 + b2 % 0x40)
                  = [0xE0 + b0 % 0x10, 0x80 + b1 % 0x40, 0x80 + b2 % 0x40] := by
                simp only [utf8Encode]
                rw [if_neg (by omega), if_neg (by omega), if_neg (by omega),
                  if_pos (by omega), d1, d2, d3]
              refine ⟨?_, ?_, by simp [he], by simp⟩
              · simp only [List.take, he, List.cons.injEq]
                refine ⟨by omega, by omega, by omega, trivial⟩
              · simp only [validRune, Bool.or_eq_true, decide_eq_true_eq,
                  Bool.and_eq_true]
                omega
            · left; simp [decodeRune, h1, h2, h3, h5, hacc]
        · match rest with
          | [] => left; simp [decodeRune, h1, h2, h3, h5]
          | [b1] => left; simp [decodeRune, h1, h2, h3, h5]
          | [b1, b2] => left; simp [decodeRune, h1, h2, h3, h5]
          | b1 :: b2 :: b3 :: tl =>
            by_cases hacc : ((if b0 = 0xF0 then 0x90 ≤ b1 ∧ b1 ≤ 0xBF
                 else if b0 = 0xF4 then 0x80 ≤ b1 ∧ b1 ≤ 0x8F
                 else 0x80 ≤ b1 ∧ b1 ≤ 0xBF) ∧ 0x80 ≤ b2 ∧ b2 ≤ 0xBF
                 ∧ 0x80 ≤ b3 ∧ b3 ≤ 0xBF)
            · have hd : decodeRune (b0 :: b1 :: b2 :: b3 :: tl)
                  = ((b0 % 0x8) * 0x40000 + (b1 % 0x40) * 0x1000
                      + (b2 % 0x40) * 0x40 + b3 % 0x40, 4) := by
                simp [decodeRune, h1, h2, h3, h5, hacc]
              right
              rw [hd]
              obtain ⟨hb1, hb2a, hb2b, hb3a, hb3b⟩ := hacc
              have hb1' : 0x80 ≤ b1 ∧ b1 ≤ 0xBF ∧
                  (b0 = 0xF0 → 0x90 ≤ b1) ∧ (b0 = 0xF4 → b1 ≤ 0x8F) := by
                by_cases hE : b0 = 0xF0
                · rw [if_pos hE] at hb1; omega
                · rw [if_neg hE] at hb1
                  by_cases hD : b0 = 0xF4
                  · rw [if_pos hD] at hb1; omega
                  · rw [if_neg hD] at hb1; omega
              have d1 : ((b0 % 0x8) * 0x40000 + (b1 % 0x40) * 0x1000
                  + (b2 % 0x40) * 0x40 + b3 % 0x40) / 0x40000 = b0 % 0x8 := by
                omega
              have d2 : (((b0 % 0x8) * 0x40000 + (b1 % 0x40) * 0x1000
                  + (b2 % 0x40) * 0x40 + b3 % 0x40) / 0x1000) % 0x40
                  = b1 % 0x40 := by omega
              have d3 : (((b0 % 0x8) * 0x40000 + (b1 % 0x40) * 0x1000
                  + (b2 % 0x40) * 0x40 + b3 % 0x40) / 0x40) % 0x40
                  = b2 % 0x40 := by omega
              have d4 : ((b0 % 0x8) * 0x40000 + (b1 % 0x40) * 0x1000
                  + (b2 % 0x40) * 0x40 + b3 % 0x40) % 0x40 = b3 % 0x40 := by
                omega
              have hlo : 0x10000 ≤ (b0 % 0x8) * 0x40000 + (b1 % 0x40) * 0x1000
                  + (b2 % 0x40) * 0x40 + b3 % 0x40 := by
                by_cases hE : b0 = 0xF0
                · have := hb1'.2.2.1 hE; omega
                · omega
              have hhi : (b0 % 0x8) * 0x40000 + (b1 % 0x40) * 0x1000
                  + (b2 % 0x40) * 0x40 + b3 % 0x40 < 0x110000 := by
                by_cases hD : b0 = 0xF4
                · have := hb1'.2.2.2 hD; omega
                · omega
              have he : utf8Encode
                    ((b0 % 0x8) * 0x40000 + (b1 % 0x40) * 0x1000
                      + (b2 % 0x40) * 0x40 + b3 % 0x40)
                  = [0xF0 + b0 % 0x8, 0x80 + b1 % 0x40, 0x80 + b2 % 0x40,
                     0x80 + b3 % 0x40] := by
                simp only [utf8Encode]
                rw [if_neg (by omega), if_neg (by omega), if_neg (by omega),
                  if_neg (by omega), d1, d2, d3, d4]
              refine ⟨?_, ?_, by simp [he], by simp⟩
              · simp only [List.take, he, List.cons.injEq]
                refine ⟨by omega, by omega, by omega, by omega, trivial⟩
              · simp only [validRune, Bool.or_eq_true, decide_eq_true_eq,
                  Bool.and_eq_true]
                omega
            · left; simp [decodeRune, h1, h2, h3, h5, hacc]

/-! ## rangeRunes lemmas -/

theorem rangeRunesAux_congr (f1 : Nat) :
    ∀ (f2 : Nat) (l : List Nat), l.length ≤ f1 → l.length ≤ f2 →
      rangeRunesAux f1 l = rangeRunesAux f2 l := by
  induction f1 with
  | zero =>
    intro f2 l h1 _
    have hl : l = [] := by
      cases l with
      | nil => rfl
      | cons a as => simp at h1
    subst hl
    cases f2 <;> rfl
  | succ f ih =>
    intro f2 l h1 h2
    cases l with
    | nil => cases f2 <;> rfl
    | cons b rest =>
      cases f2 with
      | zero => simp at h2
      | succ g =>
        simp only [rangeRunesAux]
        simp only [List.length_cons] at h1 h2
        have hlen : (List.drop ((decodeRune (b :: rest)).2 - 1) rest).length
            ≤ rest.length := by
          simp [List.length_drop]
        rw [ih g (List.drop ((decodeRune (b :: rest)).2 - 1) rest)
          (by omega) (by omega)]

/-- The defining step of the range loop. -/
theorem rangeRunes_cons (b : Nat) (rest : List Nat) :
    rangeRunes (b :: rest)
      = (decodeRune (b :: rest)).1
        :: rangeRunes (List.drop ((decodeRune (b :: rest)).2 - 1) rest) := by
  unfold rangeRunes
  simp only [List.length_cons, rangeRunesAux]
  congr 1
  exact rangeRunesAux_congr rest.length _ _
    (by simp [List.length_drop]) (le_refl _)

/-- The range loop recovers a rune from its canonical encoding. -/
theorem rangeRunes_utf8Encode_cons (r : Nat) (rest : List Nat)
    (h : validRune r = true) :
    rangeRunes (utf8Encode r ++ rest) = r :: rangeRunes rest := by
  obtain ⟨b, bs, hbs⟩ : ∃ b bs, utf8Encode r = b :: bs := by
    cases hcase : utf8Encode r with
    | nil => exact absurd hcase (utf8Encode_ne_nil r)
    | cons x xs => exact ⟨x, xs, rfl⟩
  have hd := decodeRune_utf8Encode r rest h
  rw [hbs] at hd ⊢
  simp only [List.cons_append] at hd ⊢
  rw [rangeRunes_cons, hd]
  simp only [List.length_cons, Nat.add_sub_cancel]
  rw [List.drop_left' rfl]

/-- The range loop over the concatenated encodings of a sequence of
Unicode scalar values yields exactly that sequence. -/
theorem rangeRunes_flatMap (rs : List Nat)
    (h : ∀ r ∈ rs, validRune r = true) :
    rangeRunes (rs.flatMap utf8Encode) = rs := by
  induction rs with
  | nil => rfl
  | cons r rs ih =>
    simp only [List.flatMap_cons]
    rw [rangeRunes_utf8Encode_cons r _ (h r (by simp))]
    rw [ih (fun x hx => h x (by simp [hx]))]

/-- If the range loop never produced an error rune via the error path,
the input is valid UTF-8: it is the concatenation of the canonical
encodings of its runes, all Unicode scalar values. -/
theorem rangeRunes_no_error :
    ∀ (n : Nat) (l : List Nat), l.length ≤ n →
      RuneError ∉ rangeRunes l →
      l = (rangeRunes l).flatMap utf8Encode
        ∧ ∀ r ∈ rangeRunes l, validRune r = true := by
  intro n
  induction n with
  | zero =>
    intro l hl _
    have : l = [] := by
      cases l with
      | nil => rfl
      | cons a as => simp at hl
    subst this
    exact ⟨rfl, by simp [rangeRunes, rangeRunesAux]⟩
  | succ m ih =>
    intro l hl hno
    cases l with
    | nil => exact ⟨rfl, by simp [rangeRunes, rangeRunesAux]⟩
    | cons b rest =>
      rcases decodeRune_spec b rest with herr | ⟨htake, hvalid, hlen, hle⟩
      · exfalso
        apply hno
        rw [rangeRunes_cons, herr]
        simp
      · have hpos : 1 ≤ (decodeRune (b :: rest)).2 := by
          rw [hlen]
          have := utf8Encode_ne_nil (decodeRune (b :: rest)).1
          cases hE : utf8Encode (decodeRune (b :: rest)).1 with
          | nil => exact absurd hE this
          | cons x xs => simp [hE]
        have hdrop : List.drop ((decodeRune (b :: rest)).2 - 1) rest
            = List.drop (decodeRune (b :: rest)).2 (b :: rest) := by
          have : (decodeRune (b :: rest)).2 = ((decodeRune (b :: rest)).2 - 1) + 1 := by
            omega
          rw [this, List.drop_succ_cons]
          simp
        have hcons := rangeRunes_cons b rest
        have hno' : RuneError ∉
            rangeRunes (List.drop ((decodeRune (b :: rest)).2 - 1) rest) := by
          intro hmem
          exact hno (by rw [hcons]; exact List.mem_cons_of_mem _ hmem)
        have hhead : (decodeRune (b :: rest)).1 ≠ RuneError := by
          intro heq
          exact hno (by rw [hcons, heq]; exact List.mem_cons_self _ _)
        have hlen' : (List.drop ((decodeRune (b :: rest)).2 - 1) rest).length
            ≤ m := by
          simp only [List.length_drop]
          simp only [List.length_cons] at hl
          omega
        obtain ⟨ih1, ih2⟩ := ih _ hlen' hno'
        constructor
        · rw [hcons]
          simp only [List.flatMap_cons]
          rw [← ih1, ← htake, hdrop]
          exact (List.take_append_drop _ _).symm
        · rw [hcons]
          intro r hr
          rcases List.mem_cons.mp hr with rfl | hr'
          · exact hvalid
          · exact ih2 r hr'

/-- A byte sequence that is not valid UTF-8 yields `RuneError` through
the error path of the range loop. -/
theorem runeError_mem_of_not_validUTF8 (l : List Nat)
    (h : validUTF8 l = false) : RuneError ∈ rangeRunes l := by
  by_contra hno
  obtain ⟨h1, h2⟩ := rangeRunes_no_error l.length l (le_refl _) hno
  have hb : (l == (rangeRunes l).flatMap utf8Encode) = true := beq_iff_eq.mpr h1
  have ha : (rangeRunes l).all (fun r => validRune r) = true :=
    List.all_eq_true.mpr h2
  simp [validUTF8, hb, ha] at h

/-! ## Transcoding loop lemmas -/

/-- The encode loop, fully characterized: one output byte per rune (the
table's byte or `'?'`), and `ErrInvalidCodepoint` exactly when some
rune had no mapping. -/
theorem mapRunesLoop_spec (cm : List (Nat × Nat)) (rs : List Nat) :
    mapRunesLoop cm rs
      = (rs.map (encodeOneByte cm),
         if rs.all (fun r => (mapLookup cm r).isSome) = true then none
         else some GoError.invalidCodepoint) := by
  induction rs with
  | nil => rfl
  | cons r rs ih =>
    cases hl : mapLookup cm r with
    | some c =>
      simp only [mapRunesLoop, hl, ih, List.map_cons, List.all_cons]
      simp [encodeOneByte, hl]
    | none =>
      simp only [mapRunesLoop, hl, ih, List.map_cons, List.all_cons]
      simp [encodeOneByte, hl]

/-- The decode loop, fully characterized: the concatenated UTF-8
encodings of one rune per input byte (the table's rune or `RuneError`),
and `ErrInvalidCodepoint` exactly when some byte had no mapping. -/
theorem mapBytesToRunes_spec (cm : List (Nat × Nat)) (data : List Nat) :
    mapBytesToRunes cm data
      = ((data.map (decodeOneRune cm)).flatMap utf8Encode,
         if data.all (fun b => (mapLookup cm b).isSome) = true then none
         else some GoError.invalidCodepoint) := by
  induction data with
  | nil => rfl
  | cons b bs ih =>
    cases hl : mapLookup cm b with
    | some r =>
      simp only [mapBytesToRunes, hl, ih, List.map_cons, List.all_cons,
        List.flatMap_cons]
      simp [decodeOneRune, hl]
    | none =>
      simp only [mapBytesToRunes, hl, ih, List.map_cons, List.all_cons,
        List.flatMap_cons]
      simp [decodeOneRune, hl]

/-- Neither transcoding loop can produce `ErrUnknownEncoding`. -/
theorem mapRunesLoop_err_ne_unknown (cm : List (Nat × Nat)) (rs : List Nat) :
    (mapRunesLoop cm rs).2 ≠ some GoError.unknownEncoding := by
  rw [mapRunesLoop_spec]
  split <;> simp

theorem mapBytesToRunes_err_ne_unknown (cm : List (Nat × Nat))
    (data : List Nat) :
    (mapBytesToRunes cm data).2 ≠ some GoError.unknownEncoding := by
  rw [mapBytesToRunes_spec]
  split <;> simp

/-! ## Reversal lemmas -/

theorem reverseByteRuneMap_eq (m : List (Nat × Nat)) :
    reverseByteRuneMap m = (m.map (fun p => (p.2, p.1))).reverse := by
  have key : ∀ (acc : List (Nat × Nat)),
      m.foldl (fun acc kv => (kv.2, kv.1) :: acc) acc
        = (m.map (fun p => (p.2, p.1))).reverse ++ acc := by
    induction m with
    | nil => intro acc; simp
    | cons p ps ih =>
      intro acc
      simp only [List.foldl_cons, List.map_cons, List.reverse_cons, ih]
      simp
  simpa [reverseByteRuneMap] using key []

theorem mapLookup_map_swap (l : List (Nat × Nat)) (c : Nat) :
    mapLookup (l.map (fun p => (p.2, p.1))) c
      = (l.find? (fun p => p.2 == c)).map Prod.fst := by
  induction l with
  | nil => rfl
  | cons p ps ih =>
    simp only [List.map_cons, mapLookup]
    by_cases h : p.2 = c
    · rw [if_pos h.symm]
      have hb : (p.2 == c) = true := by simp [h]
      simp [List.find?, hb]
    · rw [if_neg (fun hh => h hh.symm)]
      have hb : (p.2 == c) = false := by simp [h]
      simp [List.find?, hb, ih]

/-- Lookup in the derived encode table finds the byte of the LAST
entry, in construction order, whose codepoint matches. -/
theorem mapLookup_reverseByteRuneMap (m : List (Nat × Nat)) (c : Nat) :
    mapLookup (reverseByteRuneMap m) c
      = (m.reverse.find? (fun p => p.2 == c)).map Prod.fst := by
  rw [reverseByteRuneMap_eq, ← List.map_reverse, mapLookup_map_swap]

theorem mapLookup_mem {α β : Type} [DecidableEq α] (m : List (α × β))
    (k : α) (v : β) (h : mapLookup m k = some v) : (k, v) ∈ m := by
  induction m with
  | nil => simp [mapLookup] at h
  | cons p ps ih =>
    rcases p with ⟨k', v'⟩
    simp only [mapLookup] at h
    by_cases hk : k = k'
    · rw [if_pos hk] at h
      injection h with h
      subst hk
      subst h
      simp
    · rw [if_neg hk] at h
      simp [ih h]

theorem mapLookup_of_mem_nodup {α β : Type} [DecidableEq α]
    (m : List (α × β)) (hnd : (m.map Prod.fst).Nodup) (k : α) (v : β)
    (h : (k, v) ∈ m) : mapLookup m k = some v := by
  induction m with
  | nil => simp at h
  | cons p ps ih =>
    rcases p with ⟨k', v'⟩
    simp only [List.map_cons, List.nodup_cons] at hnd
    rcases List.mem_cons.mp h with heq | hmem
    · injection heq with h1 h2
      subst h1
      subst h2
      simp [mapLookup]
    · have hk : ¬ (k = k') := by
        intro heq
        subst heq
        exact hnd.1 (List.mem_map.mpr ⟨(k, v), hmem, rfl⟩)
      simp only [mapLookup, if_neg hk]
      exact ih hnd.2 hmem

/-- If the derived encode table sends rune `r` to byte `b`, a decode
table with pairwise-distinct byte keys sends `b` back to `r`. -/
theorem mapLookup_reverse_decode (dm : List (Nat × Nat))
    (hnd : (dm.map Prod.fst).Nodup) (r b : Nat)
    (h : mapLookup (reverseByteRuneMap dm) r = some b) :
    mapLookup dm b = some r := by
  rw [mapLookup_reverseByteRuneMap] at h
  cases hf : dm.reverse.find? (fun p => p.2 == r) with
  | none => rw [hf] at h; simp at h
  | some q =>
    rw [hf] at h
    simp only [Option.map_some'] at h
    injection h with h
    have hq : q ∈ dm := List.mem_reverse.mp (List.mem_of_find?_eq_some hf)
    have hq2 : q.2 = r := by
      have := List.find?_some hf
      simpa using this
    have hqp : (b, r) ∈ dm := by
      rw [← h, ← hq2]
      exact hq
    exact mapLookup_of_mem_nodup dm hnd b r hqp

/-- Round trip over any decode table with pairwise-distinct byte keys
whose derived encode table has no entry for `RuneError`: encoding a
text whose runes are all mappable and decoding the result restores the
text, with no error on either side. -/
theorem round_trip (dm : List (Nat × Nat))
    (hnd : (dm.map Prod.fst).Nodup)
    (hnoRepl : mapLookup (reverseByteRuneMap dm) RuneError = none)
    (text : List Nat)
    (hmap : ∀ r ∈ rangeRunes text,
      (mapLookup (reverseByteRuneMap dm) r).isSome = true) :
    (mapRunesToBytes (reverseByteRuneMap dm) text).2 = none ∧
    mapBytesToRunes dm (mapRunesToBytes (reverseByteRuneMap dm) text).1
      = (text, none) := by
  have hnoRE : RuneError ∉ rangeRunes text := by
    intro hmem
    have h := hmap _ hmem
    rw [hnoRepl] at h
    simp at h
  obtain ⟨htext, hvalidAll⟩ :=
    rangeRunes_no_error text.length text (le_refl _) hnoRE
  have hall : (rangeRunes text).all
      (fun r => (mapLookup (reverseByteRuneMap dm) r).isSome) = true :=
    List.all_eq_true.mpr hmap
  have henc : mapRunesToBytes (reverseByteRuneMap dm) text
      = ((rangeRunes text).map (encodeOneByte (reverseByteRuneMap dm)),
         none) := by
    unfold mapRunesToBytes
    rw [mapRunesLoop_spec, if_pos hall]
  refine ⟨by rw [henc], ?_⟩
  rw [henc]
  have key : ∀ rs : List Nat,
      (∀ r ∈ rs, (mapLookup (reverseByteRuneMap dm) r).isSome = true) →
      mapBytesToRunes dm (rs.map (encodeOneByte (reverseByteRuneMap dm)))
        = (rs.flatMap utf8Encode, none) := by
    intro rs
    induction rs with
    | nil => intro _; rfl
    | cons r rs ih =>
      intro hrs
      have hr := hrs r (by simp)
      obtain ⟨b, hb⟩ := Option.isSome_iff_exists.mp hr
      have hdm : mapLookup dm b = some r :=
        mapLookup_reverse_decode dm hnd r b hb
      have hx : encodeOneByte (reverseByteRuneMap dm) r = b := by
        simp [encodeOneByte, hb]
      simp only [List.map_cons, hx, List.flatMap_cons]
      simp only [mapBytesToRunes, hdm]
      rw [ih (fun x hx' => hrs x (by simp [hx']))]
  rw [key _ hmap, ← htext]

/-! ## Claim theorems -/

set_option maxRecDepth 100000 in
/-- C1: for every registered codec and every text composed solely of
codepoints present in that codec's derived encode table, decoding the
result of encoding the text yields the original text, and neither the
encode call nor the decode call returns an error. -/
theorem C1_round_trip_mappable (name : String) (c : codecMap8Bit)
    (hreg : (name, c) ∈ codecsMap) (text : List Nat)
    (hmap : ∀ r ∈ rangeRunes text,
      (mapLookup c.EncodeMap r).isSome = true) :
    (c.Encode text).2 = none
    ∧ c.Decode (c.Encode text).1 = (text, none) := by
  have hc : c = iso8859_2Codec ∨ c = iso8859_14Codec := by
    simp only [codecsMap, List.mem_cons, List.not_mem_nil, or_false,
      Prod.mk.injEq] at hreg
    rcases hreg with ⟨-, h⟩ | ⟨-, h⟩
    · exact Or.inl h
    · exact Or.inr h
  rcases hc with rfl | rfl
  · exact round_trip iso8859_2Decode (by decide) (by decide) text hmap
  · exact round_trip iso8859_14Decode (by decide) (by decide) text hmap

set_option maxRecDepth 100000 in
theorem C1_round_trip_mappable_witness :
    (("ISO-8859-2", iso8859_2Codec) ∈ codecsMap
      ∧ ∀ r ∈ rangeRunes [0x41, 0xC4, 0x85],
          (mapLookup iso8859_2Codec.EncodeMap r).isSome = true)
    ∧ ((iso8859_2Codec.Encode [0x41, 0xC4, 0x85]).2 = none
      ∧ iso8859_2Codec.Decode
          (iso8859_2Codec.Encode [0x41, 0xC4, 0x85]).1
          = ([0x41, 0xC4, 0x85], none)) :=
  ⟨⟨List.Mem.head _, by decide⟩,
   C1_round_trip_mappable "ISO-8859-2" iso8859_2Codec (List.Mem.head _)
     [0x41, 0xC4, 0x85] (by decide)⟩

/-- C2: for every input and every encoding label whose normalized,
alias-resolved form has no registered codec, each of `Encode`,
`Decode`, `EncodeToBuffer` and `DecodeToBuffer` returns the original
input byte-for-byte together with `ErrUnknownEncoding`. -/
theorem C2_unknown_encoding_untouched (data : List Nat) (encoding : String)
    (h : mapLookup codecsMap (getCodecForEncoding encoding) = none) :
    Encode data encoding = (data, some GoError.unknownEncoding)
    ∧ Decode data encoding = (data, some GoError.unknownEncoding)
    ∧ EncodeToBuffer data encoding = (data, some GoError.unknownEncoding)
    ∧ DecodeToBuffer data encoding = (data, some GoError.unknownEncoding) := by
  unfold Encode Decode EncodeToBuffer DecodeToBuffer
  rw [h]
  exact ⟨rfl, rfl, rfl, rfl⟩

set_option maxRecDepth 100000 in
theorem C2_unknown_encoding_untouched_witness :
    mapLookup codecsMap (getCodecForEncoding "NOT-A-REAL-ENCODING") = none
    ∧ (Encode [0x41] "NOT-A-REAL-ENCODING"
        = ([0x41], some GoError.unknownEncoding)
      ∧ Decode [0x41] "NOT-A-REAL-ENCODING"
        = ([0x41], some GoError.unknownEncoding)
      ∧ EncodeToBuffer [0x41] "NOT-A-REAL-ENCODING"
        = ([0x41], some GoError.unknownEncoding)
      ∧ DecodeToBuffer [0x41] "NOT-A-REAL-ENCODING"
        = ([0x41], some GoError.unknownEncoding)) :=
  ⟨by decide,
   C2_unknown_encoding_untouched [0x41] "NOT-A-REAL-ENCODING" (by decide)⟩

/-- C3: for every registered codec, `Decode` looks up each byte of the
input in the decode table in order, emitting the mapped codepoint or
the replacement codepoint `RuneError`, always processes the whole
input, and returns the accumulated text with the single
`ErrInvalidCodepoint` status exactly when some substitution occurred. -/
theorem C3_decode_substitution_policy (name : String) (c : codecMap8Bit)
    (hreg : (name, c) ∈ codecsMap) (data : List Nat) :
    mapBytesToRunes c.DecodeMap data
      = ((data.map (decodeOneRune c.DecodeMap)).flatMap utf8Encode,
         if data.all (fun b => (mapLookup c.DecodeMap b).isSome) = true
         then none else some GoError.invalidCodepoint) :=
  mapBytesToRunes_spec c.DecodeMap data

theorem C3_decode_substitution_policy_witness :
    ("ISO-8859-2", iso8859_2Codec) ∈ codecsMap
    ∧ mapBytesToRunes iso8859_2Codec.DecodeMap [0xA1, 0x41]
      = (([0xA1, 0x41].map (decodeOneRune iso8859_2Codec.DecodeMap)).flatMap
           utf8Encode,
         if [0xA1, 0x41].all
             (fun b => (mapLookup iso8859_2Codec.DecodeMap b).isSome) = true
         then none else some GoError.invalidCodepoint) :=
  ⟨List.Mem.head _,
   C3_decode_substitution_policy "ISO-8859-2" iso8859_2Codec
     (List.Mem.head _) [0xA1, 0x41]⟩

/-- C4: for every registered codec, `Encode` iterates the input as a
sequence of codepoints (the range loop over the string), emitting the
table's byte for a mapped codepoint and `'?'` (0x3F) for an absent
one, runs to completion, and returns `ErrInvalidCodepoint` exactly
when some substitution occurred. -/
theorem C4_encode_substitution_policy (name : String) (c : codecMap8Bit)
    (hreg : (name, c) ∈ codecsMap) (data : List Nat) :
    mapRunesToBytes c.EncodeMap data
      = ((rangeRunes data).map (encodeOneByte c.EncodeMap),
         if (rangeRunes data).all
             (fun r => (mapLookup c.EncodeMap r).isSome) = true
         then none else some GoError.invalidCodepoint) :=
  mapRunesLoop_spec c.EncodeMap (rangeRunes data)

theorem C4_encode_substitution_policy_witness :
    ("ISO-8859-2", iso8859_2Codec) ∈ codecsMap
    ∧ mapRunesToBytes iso8859_2Codec.EncodeMap [0x41, 0xC4, 0x85]
      = ((rangeRunes [0x41, 0xC4, 0x85]).map
           (encodeOneByte iso8859_2Codec.EncodeMap),
         if (rangeRunes [0x41, 0xC4, 0x85]).all
             (fun r => (mapLookup iso8859_2Codec.EncodeMap r).isSome) = true
         then none else some GoError.invalidCodepoint) :=
  ⟨List.Mem.head _,
   C4_encode_substitution_policy "ISO-8859-2" iso8859_2Codec
     (List.Mem.head _) [0x41, 0xC4, 0x85]⟩

/-- C5: substitution, not truncation.  For any table: if the input has
at least one unmappable unit, the output still has exactly one unit
per input unit (decode: one codepoint per input byte; encode: one byte
per input codepoint) and the error is `ErrInvalidCodepoint`. -/
theorem C5_substitution_not_truncation (cm : List (Nat × Nat))
    (data : List Nat) :
    ((∀ p ∈ cm, validRune p.2 = true) →
      (∃ b ∈ data, mapLookup cm b = none) →
      (rangeRunes (mapBytesToRunes cm data).1).length = data.length
        ∧ (mapBytesToRunes cm data).2 = some GoError.invalidCodepoint)
    ∧ ((∃ r ∈ rangeRunes data, mapLookup cm r = none) →
      (mapRunesToBytes cm data).1.length = (rangeRunes data).length
        ∧ (mapRunesToBytes cm data).2 = some GoError.invalidCodepoint) := by
  constructor
  · rintro hval ⟨b, hb, hnone⟩
    have hfalse : data.all (fun b => (mapLookup cm b).isSome) = false := by
      cases hall : data.all (fun b => (mapLookup cm b).isSome) with
      | false => rfl
      | true =>
        have h := List.all_eq_true.mp hall b hb
        rw [hnone] at h
        simp at h
    rw [mapBytesToRunes_spec, hfalse]
    constructor
    · rw [rangeRunes_flatMap]
      · simp
      · intro r hr
        obtain ⟨x, _, rfl⟩ := List.mem_map.mp hr
        unfold decodeOneRune
        cases hlk : mapLookup cm x with
        | none => decide
        | some v =>
          simpa using hval (x, v) (mapLookup_mem cm x v hlk)
    · simp
  · rintro ⟨r, hr, hnone⟩
    have hfalse : (rangeRunes data).all
        (fun r => (mapLookup cm r).isSome) = false := by
      cases hall : (rangeRunes data).all (fun r => (mapLookup cm r).isSome)
        with
      | false => rfl
      | true =>
        have h := List.all_eq_true.mp hall r hr
        rw [hnone] at h
        simp at h
    unfold mapRunesToBytes
    rw [mapRunesLoop_spec, hfalse]
    exact ⟨by simp, by simp⟩

theorem C5_substitution_not_truncation_witness :
    ((∀ p ∈ ([] : List (Nat × Nat)), validRune p.2 = true)
      ∧ (∃ b ∈ [0x41], mapLookup ([] : List (Nat × Nat)) b = none)
      ∧ (∃ r ∈ rangeRunes [0x41],
          mapLookup ([] : List (Nat × Nat)) r = none))
    ∧ ((rangeRunes (mapBytesToRunes [] [0x41]).1).length = [0x41].length
      ∧ (mapBytesToRunes ([] : List (Nat × Nat)) [0x41]).2
          = some GoError.invalidCodepoint)
    ∧ ((mapRunesToBytes ([] : List (Nat × Nat)) [0x41]).1.length
          = (rangeRunes [0x41]).length
      ∧ (mapRunesToBytes ([] : List (Nat × Nat)) [0x41]).2
          = some GoError.invalidCodepoint) :=
  ⟨⟨by decide, by decide, by decide⟩,
   (C5_substitution_not_truncation [] [0x41]).1 (by decide) (by decide),
   (C5_substitution_not_truncation [] [0x41]).2 (by decide)⟩

set_option maxRecDepth 100000 in
/-- C6: alias equivalence.  Decoding with the labels `"8859-2"`,
`"ISO-8859-2"` and `"iso_8859_2"` gives identical results for every
input, because the label is uppercased, underscores become hyphens,
and a registered alias is replaced by its canonical name before the
registry lookup. -/
theorem C6_alias_equivalence (data : List Nat) :
    Decode data "8859-2" = Decode data "ISO-8859-2"
    ∧ Decode data "iso_8859_2" = Decode data "ISO-8859-2" := by
  have h1 : getCodecForEncoding "8859-2" = "ISO-8859-2" := by decide
  have h2 : getCodecForEncoding "iso_8859_2" = "ISO-8859-2" := by decide
  unfold Decode
  rw [h1, h2]
  exact ⟨rfl, rfl⟩

set_option maxRecDepth 1000000 in
/-- C7: the buffer variants do NOT behave identically to the discrete
variants on the encode side.  On the UTF-8 encoding of "Á" (bytes
C3 81), `Encode` decodes the two bytes as the single rune U+00C1 and
emits byte C1 with no error, while `EncodeToBuffer` iterates the raw
bytes as runes (`for _, r := range data` over a `[]byte` with
`cm[rune(r)]`), emitting `'?'` for U+00C3 and 81 for U+0081 with
`ErrInvalidCodepoint`.  (`DecodeToBuffer` does match `Decode`: both
loops are byte-for-byte identical.) -/
theorem C7_buffer_encode_divergence :
    Encode [0xC3, 0x81] "ISO-8859-2" = ([0xC1], none)
    ∧ EncodeToBuffer [0xC3, 0x81] "ISO-8859-2"
        = ([0x3F, 0x81], some GoError.invalidCodepoint)
    ∧ Encode [0xC3, 0x81] "ISO-8859-2"
        ≠ EncodeToBuffer [0xC3, 0x81] "ISO-8859-2" := by
  exact ⟨by decide, by decide, by decide⟩

/-- C8: every name returned by `List()` resolves to a working codec:
`Encode` and `Decode` with that name never return
`ErrUnknownEncoding`. -/
theorem C8_list_consistency (name : String) (hmem : name ∈ ListEncodings)
    (data : List Nat) :
    (Encode data name).2 ≠ some GoError.unknownEncoding
    ∧ (Decode data name).2 ≠ some GoError.unknownEncoding := by
  have hn : name = "ISO-8859-2" ∨ name = "ISO-8859-14" := by
    simpa [ListEncodings, codecsMap] using hmem
  rcases hn with rfl | rfl
  · exact ⟨mapRunesLoop_err_ne_unknown iso8859_2Codec.EncodeMap
        (rangeRunes data),
      mapBytesToRunes_err_ne_unknown iso8859_2Codec.DecodeMap data⟩
  · exact ⟨mapRunesLoop_err_ne_unknown iso8859_14Codec.EncodeMap
        (rangeRunes data),
      mapBytesToRunes_err_ne_unknown iso8859_14Codec.DecodeMap data⟩

theorem C8_list_consistency_witness :
    "ISO-8859-2" ∈ ListEncodings
    ∧ ((Encode [0x41] "ISO-8859-2").2 ≠ some GoError.unknownEncoding
      ∧ (Decode [0x41] "ISO-8859-2").2 ≠ some GoError.unknownEncoding) :=
  ⟨List.Mem.head _,
   C8_list_consistency "ISO-8859-2" (List.Mem.head _) [0x41]⟩

/-- C9: the derived encode table is the inverse of the decode
relation: it sends codepoint `c` to byte `b` only if `(b, c)` is a
decode entry; it has an entry for every codepoint in the decode
table's range; and it returns the byte of the LAST entry, in
construction order, whose codepoint is `c` — so when two distinct
bytes decode to the same codepoint, exactly the last constructed
survives. -/
theorem C9_reverse_map_inverse (m : List (Nat × Nat)) (c : Nat) :
    (∀ b, mapLookup (reverseByteRuneMap m) c = some b → (b, c) ∈ m)
    ∧ (c ∈ m.map Prod.snd
        → (mapLookup (reverseByteRuneMap m) c).isSome = true)
    ∧ mapLookup (reverseByteRuneMap m) c
        = (m.reverse.find? (fun p => p.2 == c)).map Prod.fst := by
  refine ⟨?_, ?_, mapLookup_reverseByteRuneMap m c⟩
  · intro b h
    have hmem := mapLookup_mem _ _ _ h
    rw [reverseByteRuneMap_eq] at hmem
    simp only [List.mem_reverse, List.mem_map] at hmem
    obtain ⟨p, hp, heq⟩ := hmem
    rcases p with ⟨x, y⟩
    simp only [Prod.mk.injEq] at heq
    obtain ⟨h2, h1⟩ := heq
    subst h1
    subst h2
    exact hp
  · intro hc
    rw [mapLookup_reverseByteRuneMap]
    obtain ⟨p, hp, hpc⟩ := List.mem_map.mp hc
    have hex : ∃ q, q ∈ m.reverse ∧ (fun p => p.2 == c) q = true :=
      ⟨p, List.mem_reverse.mpr hp, by simp [hpc]⟩
    have hf : (m.reverse.find? (fun p => p.2 == c)).isSome = true :=
      List.find?_isSome.mpr (by simpa using hex)
    cases hq : m.reverse.find? (fun p => p.2 == c) with
    | none => rw [hq] at hf; simp at hf
    | some q => simp

theorem C9_reverse_map_inverse_witness :
    ((2, 10) ∈ [(1, 10), (2, 10)]
      ∧ (mapLookup (reverseByteRuneMap [(1, 10), (2, 10)]) 10).isSome
          = true)
    ∧ mapLookup (reverseByteRuneMap [(1, 10), (2, 10)]) 10 = some 2 :=
  ⟨⟨(C9_reverse_map_inverse [(1, 10), (2, 10)] 10).1 2 (by decide),
    (C9_reverse_map_inverse [(1, 10), (2, 10)] 10).2.1 (by decide)⟩,
   by decide⟩

set_option maxRecDepth 100000 in
/-- C10: for every registered codec, `Encode` on a string that is not
valid UTF-8 neither fails nor skips input: the range loop yields the
replacement codepoint `RuneError` for the bytes of each invalid
sequence; `RuneError` is absent from every shipped encode table, so
each such unit is emitted as one `'?'` byte (0x3F) and the call
returns `ErrInvalidCodepoint`. -/
theorem C10_invalid_utf8_encode (name : String) (c : codecMap8Bit)
    (hreg : (name, c) ∈ codecsMap) :
    mapLookup c.EncodeMap RuneError = none
    ∧ encodeOneByte c.EncodeMap RuneError = 0x3F
    ∧ ∀ data : List Nat, validUTF8 data = false →
        RuneError ∈ rangeRunes data
        ∧ mapRunesToBytes c.EncodeMap data
            = ((rangeRunes data).map (encodeOneByte c.EncodeMap),
               some GoError.invalidCodepoint) := by
  have hre : mapLookup c.EncodeMap RuneError = none := by
    have hc : c = iso8859_2Codec ∨ c = iso8859_14Codec := by
      simp only [codecsMap, List.mem_cons, List.not_mem_nil, or_false,
        Prod.mk.injEq] at hreg
      rcases hreg with ⟨-, h⟩ | ⟨-, h⟩
      · exact Or.inl h
      · exact Or.inr h
    rcases hc with rfl | rfl
    · decide
    · decide
  refine ⟨hre, by simp [encodeOneByte, hre], ?_⟩
  intro data hdata
  have hmem := runeError_mem_of_not_validUTF8 data hdata
  refine ⟨hmem, ?_⟩
  have hfalse : (rangeRunes data).all
      (fun r => (mapLookup c.EncodeMap r).isSome) = false := by
    cases hall : (rangeRunes data).all
        (fun r => (mapLookup c.EncodeMap r).isSome) with
    | false => rfl
    | true =>
      have h := List.all_eq_true.mp hall RuneError hmem
      rw [hre] at h
      simp at h
  unfold mapRunesToBytes
  rw [mapRunesLoop_spec, hfalse]
  simp

set_option maxRecDepth 100000 in
theorem C10_invalid_utf8_encode_witness :
    (("ISO-8859-2", iso8859_2Codec) ∈ codecsMap
      ∧ validUTF8 [0x80] = false)
    ∧ (RuneError ∈ rangeRunes [0x80]
      ∧ mapRunesToBytes iso8859_2Codec.EncodeMap [0x80]
          = ((rangeRunes [0x80]).map
               (encodeOneByte iso8859_2Codec.EncodeMap),
             some GoError.invalidCodepoint)) :=
  ⟨⟨List.Mem.head _, by decide⟩,
   (C10_invalid_utf8_encode "ISO-8859-2" iso8859_2Codec
      (List.Mem.head _)).2.2 [0x80] (by decide)⟩
